import Mathlib

/-!
Verification of the Vanguard game-library dashboard's aggregation and
derived-state layer against its specification.

The definitions below are shallow embeddings of the TypeScript source:
  * the owned/recently-played aggregation of `src/App.tsx` (`games` queryFn),
  * the vault filter/sort pipeline of `src/App.tsx` (`filteredAndSortedGames`),
  * the achievement merge/sort of `useAchievements`
    (`src/context/NotificationContext.tsx`),
  * the mastery classifier of `src/hooks/useMastery.ts` (`verifyMastery`),
  * the achievements endpoint of the Express server
    (`GET /api/achievements/:steamid/:appid`),
  * the genre facet scan (`scanLibrary`) and the localStorage loaders.

JavaScript numbers are modelled as `Nat` for playtimes and counts and as
`Option ℚ` where NaN can arise (`none` = NaN).  JSON values stored in
localStorage are modelled by a `Json` inductive together with a fuel-based
parser `jsonParse` mirroring `JSON.parse` (returning `none` where
`JSON.parse` throws).
-/

/-- A game record as produced by the Steam owned/recent endpoints and
consumed by `App.tsx` (`src/types.ts` `Game`).  `playtime_2weeks` is an
optional field in the TypeScript interface, hence `Option Nat`. -/
structure Game where
  appid : Nat
  name : String
  playtime_forever : Nat
  playtime_2weeks : Option Nat
  img_icon_url : String
deriving DecidableEq, Repr

/-- `new Map(list.map(g => [g.appid, g])).get(id)`: JavaScript `Map`
construction keeps the *last* entry for a duplicated key. -/
def jsMapGet (l : List Game) (id : Nat) : Option Game :=
  l.foldl (fun acc g => if g.appid = id then some g else acc) none

/-- In-place element update at an index, modelling the JavaScript array
mutation `rawGames[i] = ...`; off-range indices leave the list unchanged. -/
def updateAt : List Game → Nat → (Game → Game) → List Game
  | [], _, _ => []
  | g :: gs, 0, f => f g :: gs
  | g :: gs, n + 1, f => g :: updateAt gs n f

/-- The final display-name override of the aggregator:
`g => g.appid === 480 ? { ...g, name: 'ELDEN RING COOP' } : g`
(`src/App.tsx` line 120). -/
def spacewarRename (g : Game) : Game :=
  if g.appid == 480 then { g with name := "ELDEN RING COOP" } else g

/-- The Library Aggregator: the `queryFn` of the `games` query in
`src/App.tsx` (lines 93–123).  It starts from the owned-games list,
reconciles the Spacewar entry (appid 480) with the recently-played list
(maximum of the two totals, recent two-week value copied over), synthesizes
a Spacewar entry when the owned list lacks one, and finally renames every
appid-480 entry to the override string. -/
def gamesQueryFn (owned recent : List Game) : List Game :=
  let recentSpacewar : Option Game := jsMapGet recent 480
  let raw : List Game :=
    match owned.findIdx? (fun g => g.appid == 480) with
    | some i =>
        match recentSpacewar with
        | some r =>
            updateAt owned i (fun g =>
              { g with
                playtime_forever := max g.playtime_forever r.playtime_forever
                playtime_2weeks := r.playtime_2weeks })
        | none => owned
    | none =>
        owned ++ [({ appid := 480
                     name := "Spacewar"
                     playtime_forever := (recentSpacewar.map (·.playtime_forever)).getD 0
                     playtime_2weeks := some ((recentSpacewar.bind (·.playtime_2weeks)).getD 0)
                     img_icon_url := "" } : Game)]
  raw.map spacewarRename

namespace ListFacts

theorem findIdx?_spec {α : Type} (p : α → Bool) :
    ∀ (l : List α) (i : Nat), l.findIdx? p = some i →
      ∃ a, l.get? i = some a ∧ p a = true := by
  intro l
  induction l with
  | nil => intro i h; simp [List.findIdx?] at h
  | cons a t ih =>
      intro i h
      rw [List.findIdx?_cons] at h
      by_cases hp : p a = true
      · rw [if_pos hp] at h
        cases h
        exact ⟨a, rfl, hp⟩
      · rw [if_neg hp] at h
        rw [List.findIdx?_succ] at h
        match hfind : t.findIdx? p with
        | none => rw [hfind] at h; simp at h
        | some j =>
            rw [hfind] at h
            simp only [Option.map_some'] at h
            cases h
            obtain ⟨b, hb, hpb⟩ := ih j hfind
            exact ⟨b, by simpa using hb, hpb⟩

theorem get?_updateAt (l : List Game) (i : Nat) (f : Game → Game) :
    ∀ j, (updateAt l i f).get? j = if i = j then (l.get? j).map f else l.get? j := by
  induction l generalizing i with
  | nil => intro j; cases i <;> simp [updateAt]
  | cons a t ih =>
      intro j
      cases i with
      | zero =>
          cases j with
          | zero => simp [updateAt]
          | succ j' => simp [updateAt]
      | succ i' =>
          cases j with
          | zero => simp [updateAt, Nat.succ_ne_zero]
          | succ j' =>
              simp only [updateAt, List.get?]
              rw [ih i' j']
              by_cases hij : i' = j'
              · simp [hij]
              · simp [hij, fun h => hij (Nat.succ_injective h)]

end ListFacts

theorem spacewarRename_appid (g : Game) : (spacewarRename g).appid = g.appid := by
  unfold spacewarRename
  split <;> rfl

theorem spacewarRename_eq_self {g : Game} (h : g.appid ≠ 480) : spacewarRename g = g := by
  unfold spacewarRename
  rw [if_neg (by simpa using h)]

theorem spacewarRename_of_480 {g : Game} (h : g.appid = 480) :
    spacewarRename g = { g with name := "ELDEN RING COOP" } := by
  unfold spacewarRename
  rw [if_pos (by simpa using h)]

theorem filter480_map_rename_of_none {l : List Game} (h : ∀ g ∈ l, g.appid ≠ 480) :
    (l.map spacewarRename).filter (fun g => g.appid == 480) = [] := by
  induction l with
  | nil => rfl
  | cons a t ih =>
      have ha : ((spacewarRename a).appid == 480) = false := by
        rw [spacewarRename_appid]
        simpa using h a (List.mem_cons_self a t)
      simp only [List.map_cons, List.filter_cons, ha]
      exact ih (fun g hg => h g (List.mem_cons_of_mem a hg))

/-- C1: the claimed reconciliation rule — `totalPlaytimeMinutes` of every
game present in both input lists equals the maximum of the two totals and
`recentPlaytimeMinutes` equals the recent entry's value — fails on the code:
the aggregator of `src/App.tsx` reconciles only appid 480.  Concretely, for
a game with id 1 owned at 10 minutes and recently played at 20 total / 5
recent minutes, the aggregated entry keeps 10 total and 0 recent. -/
theorem spec_c1_counterexample :
    (gamesQueryFn
        [{ appid := 1, name := "A", playtime_forever := 10, playtime_2weeks := some 0,
           img_icon_url := "" }]
        [{ appid := 1, name := "A", playtime_forever := 20, playtime_2weeks := some 5,
           img_icon_url := "" }]).filter (fun g => g.appid == 1)
      = [{ appid := 1, name := "A", playtime_forever := 10, playtime_2weeks := some 0,
           img_icon_url := "" }]
    ∧ ¬ ((10 : Nat) = max 10 20 ∧ (some 0 : Option Nat) = some 5) := by
  constructor
  · rfl
  · decide

/-- C1 (amended): the max/recent reconciliation applies only to the
pseudo-game id 480.  Every owned game with a different id passes through the
aggregation unchanged, and when id 480 is present in the owned list (at the
index `findIndex` reports) and also in the recently-played map, the
aggregated entry at that index has `totalPlaytimeMinutes` equal to the
maximum of the two totals and `recentPlaytimeMinutes` equal to the recent
entry's value (with the overridden display name). -/
theorem spec_c1_amended (owned recent : List Game) :
    (∀ g ∈ owned, g.appid ≠ 480 → g ∈ gamesQueryFn owned recent)
    ∧ (∀ i g480 r,
        owned.findIdx? (fun g => g.appid == 480) = some i →
        owned.get? i = some g480 →
        jsMapGet recent 480 = some r →
        (gamesQueryFn owned recent).get? i =
          some { appid := 480, name := "ELDEN RING COOP",
                 playtime_forever := max g480.playtime_forever r.playtime_forever,
                 playtime_2weeks := r.playtime_2weeks,
                 img_icon_url := g480.img_icon_url }) := by
  constructor
  · intro g hg hne
    unfold gamesQueryFn
    match hfind : owned.findIdx? (fun g => g.appid == 480) with
    | none =>
        match hmap : jsMapGet recent 480 with
        | none =>
            simp only [hfind, hmap]
            exact List.mem_map.2 ⟨g, List.mem_append_left _ hg, spacewarRename_eq_self hne⟩
        | some r =>
            simp only [hfind, hmap]
            exact List.mem_map.2 ⟨g, List.mem_append_left _ hg, spacewarRename_eq_self hne⟩
    | some i =>
        match hmap : jsMapGet recent 480 with
        | none =>
            simp only [hfind, hmap]
            exact List.mem_map.2 ⟨g, hg, spacewarRename_eq_self hne⟩
        | some r =>
            simp only [hfind, hmap]
            obtain ⟨a, hai, hpa⟩ := ListFacts.findIdx?_spec _ owned i hfind
            obtain ⟨j, hj⟩ := List.mem_iff_get?.1 hg
            have hij : i ≠ j := by
              intro hij
              rw [hij, hj] at hai
              cases hai
              exact hne (by simpa using hpa)
            refine List.mem_iff_get?.2 ⟨j, ?_⟩
            rw [List.get?_map, ListFacts.get?_updateAt, if_neg hij, hj]
            simp [spacewarRename_eq_self hne]
  · intro i g480 r hfind hget hmap
    have h480 : g480.appid = 480 := by
      obtain ⟨a, hai, hpa⟩ := ListFacts.findIdx?_spec _ owned i hfind
      rw [hget] at hai
      cases hai
      simpa using hpa
    unfold gamesQueryFn
    simp only [hfind, hmap]
    rw [List.get?_map, ListFacts.get?_updateAt, if_pos rfl, hget]
    simp only [Option.map_some']
    rw [spacewarRename_of_480 (by simpa using h480)]
    simp [h480]

/-- C1 witness: a concrete instantiation of the amended reconciliation —
id 480 owned at 10 minutes and recently played at 20 total / 7 recent
minutes yields the 480 entry with total `max 10 20` and recent 7. -/
theorem spec_c1_witness :
    (gamesQueryFn
        [{ appid := 480, name := "Spacewar", playtime_forever := 10,
           playtime_2weeks := some 0, img_icon_url := "i" }]
        [{ appid := 480, name := "Spacewar", playtime_forever := 20,
           playtime_2weeks := some 7, img_icon_url := "" }]).get? 0 =
      some { appid := 480, name := "ELDEN RING COOP",
             playtime_forever := max 10 20, playtime_2weeks := some 7,
             img_icon_url := "i" } :=
  (spec_c1_amended _ _).2 0
    { appid := 480, name := "Spacewar", playtime_forever := 10,
      playtime_2weeks := some 0, img_icon_url := "i" }
    { appid := 480, name := "Spacewar", playtime_forever := 20,
      playtime_2weeks := some 7, img_icon_url := "" }
    rfl rfl rfl

/-- C8: when the recently-played list maps id 480 to an entry with total
playtime 42 and the owned list has no id-480 entry, the aggregated output
has exactly one entry for id 480, carrying total playtime 42 and the
overridden display name. -/
theorem spec_c8_pseudo_game_synthesis (owned recent : List Game) (r : Game)
    (howned : ∀ g ∈ owned, g.appid ≠ 480)
    (hrec : jsMapGet recent 480 = some r)
    (hpt : r.playtime_forever = 42) :
    (gamesQueryFn owned recent).filter (fun g => g.appid == 480)
      = [{ appid := 480, name := "ELDEN RING COOP", playtime_forever := 42,
           playtime_2weeks := some (r.playtime_2weeks.getD 0), img_icon_url := "" }] := by
  have hfind : owned.findIdx? (fun g => g.appid == 480) = none := by
    rw [List.findIdx?_eq_none_iff]
    intro g hg
    simpa using howned g hg
  unfold gamesQueryFn
  simp only [hfind, hrec, List.map_append, List.filter_append]
  rw [filter480_map_rename_of_none howned]
  simp [spacewarRename, hpt]

/-- C8 witness: concrete inputs — owned list empty, recent list holding
id 480 with total 42 and two-week playtime 3. -/
theorem spec_c8_witness :
    (gamesQueryFn []
        [{ appid := 480, name := "Spacewar", playtime_forever := 42,
           playtime_2weeks := some 3, img_icon_url := "" }]).filter (fun g => g.appid == 480)
      = [{ appid := 480, name := "ELDEN RING COOP", playtime_forever := 42,
           playtime_2weeks := some 3, img_icon_url := "" }] :=
  spec_c8_pseudo_game_synthesis []
    [{ appid := 480, name := "Spacewar", playtime_forever := 42,
       playtime_2weeks := some 3, img_icon_url := "" }]
    { appid := 480, name := "Spacewar", playtime_forever := 42,
      playtime_2weeks := some 3, img_icon_url := "" }
    (by intro g hg; simp at hg) rfl rfl

/-- C10: the aggregated output always contains an id-480 entry with the
override name "ELDEN RING COOP"; when id 480 is absent from the owned list
an entry is synthesized unconditionally, and if it is also absent from the
recently-played list that synthesized entry has total playtime 0 and
two-week playtime 0. -/
theorem spec_c10_forced_spacewar (owned recent : List Game) :
    (∃ g, g ∈ gamesQueryFn owned recent ∧ g.appid = 480 ∧ g.name = "ELDEN RING COOP")
    ∧ ((∀ g ∈ owned, g.appid ≠ 480) → jsMapGet recent 480 = none →
        (gamesQueryFn owned recent).filter (fun g => g.appid == 480)
          = [{ appid := 480, name := "ELDEN RING COOP", playtime_forever := 0,
               playtime_2weeks := some 0, img_icon_url := "" }]) := by
  constructor
  · unfold gamesQueryFn
    match hfind : owned.findIdx? (fun g => g.appid == 480) with
    | none =>
        match hmap : jsMapGet recent 480 with
        | none =>
            simp only [hfind, hmap]
            refine ⟨_, List.mem_map.2 ⟨_, List.mem_append_right _ (List.mem_singleton.2 rfl), rfl⟩, ?_, ?_⟩
            · rw [spacewarRename_appid]
            · rw [spacewarRename_of_480 rfl]
        | some r =>
            simp only [hfind, hmap]
            refine ⟨_, List.mem_map.2 ⟨_, List.mem_append_right _ (List.mem_singleton.2 rfl), rfl⟩, ?_, ?_⟩
            · rw [spacewarRename_appid]
            · rw [spacewarRename_of_480 rfl]
    | some i =>
        obtain ⟨a, hai, hpa⟩ := ListFacts.findIdx?_spec _ owned i hfind
        have ha480 : a.appid = 480 := by simpa using hpa
        match hmap : jsMapGet recent 480 with
        | none =>
            simp only [hfind, hmap]
            refine ⟨spacewarRename a,
              List.mem_map.2 ⟨a, List.mem_iff_get?.2 ⟨i, hai⟩, rfl⟩, ?_, ?_⟩
            · rw [spacewarRename_appid, ha480]
            · rw [spacewarRename_of_480 ha480]
        | some r =>
            simp only [hfind, hmap]
            have hgi : ((updateAt owned i fun g =>
                { g with
                  playtime_forever := max g.playtime_forever r.playtime_forever
                  playtime_2weeks := r.playtime_2weeks }).map spacewarRename).get? i =
                some (spacewarRename
                  { a with
                    playtime_forever := max a.playtime_forever r.playtime_forever
                    playtime_2weeks := r.playtime_2weeks }) := by
              rw [List.get?_map, ListFacts.get?_updateAt, if_pos rfl, hai]
              rfl
            refine ⟨_, List.mem_iff_get?.2 ⟨i, hgi⟩, ?_, ?_⟩
            · rw [spacewarRename_appid]
              exact ha480
            · rw [spacewarRename_of_480 (by simpa using ha480)]
  · intro howned hmap
    have hfind : owned.findIdx? (fun g => g.appid == 480) = none := by
      rw [List.findIdx?_eq_none_iff]
      intro g hg
      simpa using howned g hg
    unfold gamesQueryFn
    simp only [hfind, hmap, List.map_append, List.filter_append]
    rw [filter480_map_rename_of_none howned]
    simp [spacewarRename]

/-- C10 witness: with both input lists empty, the aggregator still emits the
synthesized id-480 entry with zero playtimes and the override name. -/
theorem spec_c10_witness :
    (gamesQueryFn [] []).filter (fun g => g.appid == 480)
      = [{ appid := 480, name := "ELDEN RING COOP", playtime_forever := 0,
           playtime_2weeks := some 0, img_icon_url := "" }] :=
  (spec_c10_forced_spacewar [] []).2 (by intro g hg; simp at hg) rfl

/-! ## Vault View Engine: the filter/sort pipeline of `src/App.tsx`
(`filteredAndSortedGames`, lines 270–288). -/

/-- Character-list substring membership, modelling JavaScript
`String.prototype.includes`. -/
def listIsPrefixOf : List Char → List Char → Bool
  | [], _ => true
  | _ :: _, [] => false
  | a :: as, b :: bs => a == b && listIsPrefixOf as bs

def listContainsSub : List Char → List Char → Bool
  | needle, [] => needle.isEmpty
  | needle, c :: rest => listIsPrefixOf needle (c :: rest) || listContainsSub needle rest

/-- `hay.toLowerCase().includes(needle.toLowerCase())`. -/
def jsIncludes (hay needle : String) : Bool :=
  listContainsSub (needle.toList.map Char.toLower) (hay.toList.map Char.toLower)

/-- The router search-param `filter` values of `src/App.tsx`
(`'all' | 'mastered' | 'blacklisted' | 'active' | 'hunter'`). -/
inductive VaultFilter
  | all
  | mastered
  | blacklisted
  | active
  | hunter
deriving DecidableEq, Repr

/-- The router search-param `sort` values of `src/App.tsx`
(`'playtime' | 'name' | 'recency'`). -/
inductive VaultSortBy
  | playtime
  | name
  | recency
deriving DecidableEq, Repr

/-- The status-filter stage of `filteredAndSortedGames` in `src/App.tsx`
lines 273–281: one `filter` per vault filter value, no filtering for
`'all'`.  `(g.playtime_2weeks || 0) > 0` is the `'active'` predicate. -/
def statusFilter (vaultFilter : VaultFilter) (l : List Game)
    (masteredAppIds blacklist hunterTargets : List Nat) : List Game :=
  match vaultFilter with
  | .mastered => l.filter (fun g => masteredAppIds.contains g.appid)
  | .blacklisted => l.filter (fun g => blacklist.contains g.appid)
  | .active => l.filter (fun g => g.playtime_2weeks.getD 0 > 0)
  | .hunter => l.filter (fun g => hunterTargets.contains g.appid)
  | .all => l

/-- The sort comparator of `filteredAndSortedGames` (lines 283–287) as the
"may come first" Boolean relation: `comparator a b <= 0`.  `localeCompare`
is modelled by the order on strings. -/
def vaultSortLe (vaultSortBy : VaultSortBy) (a b : Game) : Bool :=
  match vaultSortBy with
  | .name => a.name ≤ b.name
  | .recency => b.playtime_2weeks.getD 0 ≤ a.playtime_2weeks.getD 0
  | .playtime => b.playtime_forever ≤ a.playtime_forever

/-- `filteredAndSortedGames` of `src/App.tsx` (lines 270–288): text filter,
then status filter, then sort (JavaScript `Array.prototype.sort` is stable,
modelled by `List.mergeSort`). -/
def filteredAndSortedGames (games : List Game) (searchQuery : String)
    (vaultFilter : VaultFilter) (vaultSortBy : VaultSortBy)
    (masteredAppIds blacklist hunterTargets : List Nat) : List Game :=
  let result := games.filter (fun g => jsIncludes g.name searchQuery)
  let result := statusFilter vaultFilter result masteredAppIds blacklist hunterTargets
  result.mergeSort (vaultSortLe vaultSortBy)

/-- C2: the vault status filter keeps exactly the claimed games for each
filter value: `All` keeps every game, `Mastered` those whose id is in the
mastered set, `Blacklisted` those whose id is in the blacklist, `Active`
those with positive two-week playtime, and `Hunter` those whose id is in
the hunter set. -/
theorem spec_c2_status_filter (l : List Game) (masteredAppIds blacklist hunterTargets : List Nat) :
    statusFilter .all l masteredAppIds blacklist hunterTargets = l
    ∧ (∀ g, g ∈ statusFilter .mastered l masteredAppIds blacklist hunterTargets
        ↔ g ∈ l ∧ g.appid ∈ masteredAppIds)
    ∧ (∀ g, g ∈ statusFilter .blacklisted l masteredAppIds blacklist hunterTargets
        ↔ g ∈ l ∧ g.appid ∈ blacklist)
    ∧ (∀ g, g ∈ statusFilter .active l masteredAppIds blacklist hunterTargets
        ↔ g ∈ l ∧ g.playtime_2weeks.getD 0 > 0)
    ∧ (∀ g, g ∈ statusFilter .hunter l masteredAppIds blacklist hunterTargets
        ↔ g ∈ l ∧ g.appid ∈ hunterTargets) := by
  refine ⟨rfl, ?_, ?_, ?_, ?_⟩ <;>
    intro g <;> simp [statusFilter, List.mem_filter]

/-! ## Achievement Resolver: merge and sort of `useAchievements`
(`src/context/NotificationContext.tsx`, lines 137–166). -/

/-- A merged achievement record as built by `useAchievements` (the cosmetic
fields — display name, description, icons, video link — do not participate
in the sort and are elided).  `achieved` is the 0/1 number of the upstream
player-achievement record; `percent` is the merged global completion
percentage, `none` modelling the JavaScript NaN. -/
structure MergedAch where
  apiname : String
  achieved : Nat
  percent : Option ℚ
deriving DecidableEq, Repr

/-- `p || 0` on a percent value: NaN (and 0) collapse to 0. -/
def jsOr0 (x : Option ℚ) : ℚ := x.getD 0

/-- The sort comparator of `useAchievements` (lines 158–166) as the
"may come first" Boolean relation (`comparator a b <= 0`):
`a.achieved - b.achieved` when the achieved-states differ, otherwise
`(b.percent || 0) - (a.percent || 0)`. -/
def achievementLe (a b : MergedAch) : Bool :=
  if a.achieved ≠ b.achieved then a.achieved ≤ b.achieved
  else jsOr0 b.percent ≤ jsOr0 a.percent

/-- `merged.sort(comparator)`: JavaScript `Array.prototype.sort` is stable,
modelled by `List.mergeSort`. -/
def sortAchievements (l : List MergedAch) : List MergedAch :=
  l.mergeSort achievementLe

theorem achievementLe_iff (a b : MergedAch) :
    achievementLe a b = true ↔
      (a.achieved < b.achieved
        ∨ (a.achieved = b.achieved ∧ jsOr0 b.percent ≤ jsOr0 a.percent)) := by
  unfold achievementLe
  split_ifs with h
  · simp
    omega
  · have he : a.achieved = b.achieved := by omega
    simp [he]

theorem achievementLe_total (a b : MergedAch) :
    (achievementLe a b || achievementLe b a) = true := by
  rw [Bool.or_eq_true, achievementLe_iff, achievementLe_iff]
  rcases lt_trichotomy a.achieved b.achieved with h | h | h
  · exact Or.inl (Or.inl h)
  · rcases le_total (jsOr0 b.percent) (jsOr0 a.percent) with hp | hp
    · exact Or.inl (Or.inr ⟨h, hp⟩)
    · exact Or.inr (Or.inr ⟨h.symm, hp⟩)
  · exact Or.inr (Or.inl h)

theorem achievementLe_trans (a b c : MergedAch) :
    achievementLe a b = true → achievementLe b c = true → achievementLe a c = true := by
  rw [achievementLe_iff, achievementLe_iff, achievementLe_iff]
  rintro (h1 | ⟨h1, h1p⟩) (h2 | ⟨h2, h2p⟩)
  · exact Or.inl (by omega)
  · exact Or.inl (by omega)
  · exact Or.inl (by omega)
  · exact Or.inr ⟨h1.trans h2, h2p.trans h1p⟩

/-- C3: the Achievement Resolver's output is a permutation of its input
sorted primarily by achieved-state ascending (locked before unlocked) and
secondarily by global completion percent descending; in particular the
spec's concrete instance `[unlocked 80%, locked 50%, locked 90%]` sorts to
`[locked 90%, locked 50%, unlocked 80%]`. -/
theorem spec_c3_achievement_sort :
    (∀ l : List MergedAch,
        (sortAchievements l).Perm l
        ∧ (sortAchievements l).Pairwise (fun a b =>
            a.achieved < b.achieved
            ∨ (a.achieved = b.achieved ∧ jsOr0 b.percent ≤ jsOr0 a.percent)))
    ∧ sortAchievements
        [⟨"u80", 1, some 80⟩, ⟨"l50", 0, some 50⟩, ⟨"l90", 0, some 90⟩]
      = [⟨"l90", 0, some 90⟩, ⟨"l50", 0, some 50⟩, ⟨"u80", 1, some 80⟩] := by
  constructor
  · intro l
    refine ⟨List.mergeSort_perm l achievementLe, ?_⟩
    have hs := List.sorted_mergeSort
      achievementLe_trans (fun a b => achievementLe_total a b) l
    exact hs.imp (fun h => (achievementLe_iff _ _).1 h)
  · simp [sortAchievements, List.mergeSort, List.merge, achievementLe, jsOr0]
    norm_num

/-! ## Global completion percent merge of `useAchievements`
(`src/context/NotificationContext.tsx`, lines 137–149):
`percent: typeof global?.percent === 'number' ? global.percent
        : parseFloat(global?.percent || '0')`. -/

/-- A JavaScript value as it can appear in the `percent` field of a
global-stats entry: absent, a number, or a string. -/
inductive JsVal
  | undef
  | num (q : ℚ)
  | str (s : String)
deriving DecidableEq, Repr

/-- A `GetGlobalAchievementPercentagesForApp` entry (`{ name, percent }`). -/
structure GlobalAch where
  name : String
  percent : JsVal
deriving DecidableEq, Repr

def skipWs : List Char → List Char
  | c :: cs => if c = ' ' ∨ c = '\t' ∨ c = '\n' ∨ c = '\r' then skipWs cs else c :: cs
  | [] => []

/-- Consume a maximal run of decimal digits, returning the accumulated
value, the number of digits consumed and the remaining input. -/
def digitsAux : List Char → Nat → Nat → Nat × Nat × List Char
  | c :: cs, acc, n =>
      if c.isDigit then digitsAux cs (acc * 10 + (c.toNat - 48)) (n + 1)
      else (acc, n, c :: cs)
  | [], acc, n => (acc, n, [])

/-- The syntactic part of JavaScript `parseFloat`: skip leading whitespace,
an optional sign, integer digits, an optional fraction, an optional
exponent (ignored when no digits follow `e`/`E`), ignoring any trailing
text; `none` when no digit was consumed (`parseFloat` returns NaN there).
The result is (negative?, scaled mantissa, fraction length, exponent).
The special literal `Infinity` is not modelled. -/
def parseFloatRaw (s : String) : Option (Bool × Nat × Nat × Int) :=
  let cs := skipWs s.toList
  let signNeg : Bool := match cs with
    | '-' :: _ => true
    | _ => false
  let cs1 : List Char := match cs with
    | '-' :: rest => rest
    | '+' :: rest => rest
    | _ => cs
  let p1 := digitsAux cs1 0 0
  let icnt := p1.2.1
  let cs2 := p1.2.2
  let p2 : Nat × Nat × List Char := match cs2 with
    | '.' :: rest => digitsAux rest 0 0
    | _ => (0, 0, cs2)
  let fcnt := p2.2.1
  let cs3 := p2.2.2
  if icnt = 0 ∧ fcnt = 0 then none
  else
    let expVal : Int := match cs3 with
      | e :: rest =>
          if e = 'e' ∨ e = 'E' then
            let esignNeg : Bool := match rest with
              | '-' :: _ => true
              | _ => false
            let rest2 : List Char := match rest with
              | '-' :: r => r
              | '+' :: r => r
              | _ => rest
            let p3 := digitsAux rest2 0 0
            if p3.2.1 = 0 then 0
            else if esignNeg then -(p3.1 : Int) else (p3.1 : Int)
          else 0
      | [] => 0
    some (signNeg, p1.1 * 10 ^ fcnt + p2.1, fcnt, expVal)

def ratOfParts : Bool × Nat × Nat × Int → ℚ
  | (sgn, m, fcnt, e) =>
      (if sgn then (-1 : ℚ) else 1) * ((m : ℚ) / (10 : ℚ) ^ fcnt) * (10 : ℚ) ^ e

/-- JavaScript `parseFloat` over the rationals, `none` modelling NaN. -/
def parseFloat (s : String) : Option ℚ :=
  (parseFloatRaw s).map ratOfParts

theorem parseFloat_zero_lit : parseFloat "0" = some 0 := by
  have h : parseFloatRaw "0" = some (false, 0, 0, 0) := by decide
  simp [parseFloat, h, ratOfParts]

/-- The merged `percent` field for one achievement: look the `apiname` up
in the global-stats list (`find` keeps the first match); a numeric percent
is used as-is, anything else goes through `parseFloat(value || '0')`
(`undefined` and the empty string are falsy). -/
def mergedPercent (globalStats : List GlobalAch) (apiname : String) : Option ℚ :=
  match globalStats.find? (fun ga => ga.name == apiname) with
  | some g =>
      match g.percent with
      | .num q => some q
      | .str s => parseFloat (if s = "" then "0" else s)
      | .undef => parseFloat "0"
  | none => parseFloat "0"

/-- C6: the claim — `globalCompletionPercent` equals 0 whenever the
matching entry's percent value is non-numeric — fails on the code: a
non-empty, non-parsable string percent (here `"abc"`) goes through
`parseFloat` and yields NaN, not 0. -/
theorem spec_c6_counterexample :
    mergedPercent [{ name := "ACH_1", percent := .str "abc" }] "ACH_1" = none
    ∧ (none : Option ℚ) ≠ some 0 := by
  constructor
  · decide
  · decide

/-- C6 (amended): `globalCompletionPercent` is the matching global-stats
entry's percent when that value is a number; a missing entry, an absent
percent, or an empty-string percent yields `parseFloat('0') = 0`; any other
string percent yields `parseFloat` of that string — which is NaN, not 0,
when the string is non-numeric (e.g. `"abc"`). -/
theorem spec_c6_amended (globalStats : List GlobalAch) (apiname : String) :
    (globalStats.find? (fun ga => ga.name == apiname) = none →
        mergedPercent globalStats apiname = some 0)
    ∧ (∀ g q, globalStats.find? (fun ga => ga.name == apiname) = some g →
        g.percent = .num q → mergedPercent globalStats apiname = some q)
    ∧ (∀ g, globalStats.find? (fun ga => ga.name == apiname) = some g →
        g.percent = .undef → mergedPercent globalStats apiname = some 0)
    ∧ (∀ g s, globalStats.find? (fun ga => ga.name == apiname) = some g →
        g.percent = .str s → s ≠ "" →
        mergedPercent globalStats apiname = parseFloat s)
    ∧ parseFloat "abc" = none := by
  refine ⟨?_, ?_, ?_, ?_, by decide⟩
  · intro hfind
    simp [mergedPercent, hfind, parseFloat_zero_lit]
  · intro g q hfind hq
    simp [mergedPercent, hfind, hq]
  · intro g hfind hu
    simp [mergedPercent, hfind, hu, parseFloat_zero_lit]
  · intro g s hfind hs hne
    simp [mergedPercent, hfind, hs, hne]

/-- C6 witness: a concrete run of each amended case — an absent entry gives
0, a numeric percent is taken as-is. -/
theorem spec_c6_witness :
    mergedPercent [] "ACH_1" = some 0
    ∧ mergedPercent [{ name := "ACH_2", percent := .num 37 }] "ACH_2" = some 37 :=
  ⟨(spec_c6_amended [] "ACH_1").1 rfl,
   (spec_c6_amended [{ name := "ACH_2", percent := .num 37 }] "ACH_2").2.1
     { name := "ACH_2", percent := .num 37 } 37 (by decide) rfl⟩

/-! ## Mastery classifier: `verifyMastery` of `src/hooks/useMastery.ts`
(lines 10–56). -/

/-- One entry of `playerstats.achievements` in the achievements response. -/
structure PlayerAch where
  apiname : String
  achieved : Nat
deriving DecidableEq, Repr

/-- The `playerstats` object of a `GetPlayerAchievements` response body;
every field can be absent. -/
structure Playerstats where
  success : Option Bool
  error : Option String
  achievements : Option (List PlayerAch)
deriving DecidableEq, Repr

/-- Outcome of `axios.get(apiBase/achievements/steamId/appid)` as seen by
`verifyMastery`: `fail` is a thrown request (the `catch` branch); `ok ps`
is a response whose `res.data.achievements?.playerstats` is `ps`. -/
inductive FetchResult
  | fail
  | ok (playerstats : Option Playerstats)
deriving DecidableEq, Repr

/-- The classification test of `verifyMastery` (lines 39–45):
`playerstats?.success !== false && playerstats?.achievements?.length > 0`
and then `total > 0 && achieved / total === 1`; the floating-point ratio
test `achieved / total === 1` holds exactly when `achieved = total`,
modelled by comparing the filtered count with the length. -/
def isMasteredFetch : FetchResult → Bool
  | .fail => false
  | .ok none => false
  | .ok (some ps) =>
      decide (ps.success ≠ some false) &&
      (match ps.achievements with
       | some achs =>
           decide (0 < achs.length) &&
           ((achs.filter (fun a => a.achieved == 1)).length == achs.length)
       | none => false)

/-- A successful response carrying no achievement list (absent
`playerstats`, absent `achievements`, or an empty array). -/
def zeroAchievements : FetchResult → Bool
  | .fail => false
  | .ok none => true
  | .ok (some ps) =>
      match ps.achievements with
      | some achs => achs.isEmpty
      | none => true

/-- The comparator `(a, b) => b.playtime_forever - a.playtime_forever` as
the "may come first" relation (`comparator a b <= 0`). -/
def playtimeDescLe (a b : Game) : Bool :=
  b.playtime_forever ≤ a.playtime_forever

/-- `sortedByPlaytime.slice(0, 20)`: the top 20 games by total playtime
descending (`src/hooks/useMastery.ts` lines 30–31). -/
def masteryCandidates (games : List Game) : List Game :=
  (games.mergeSort playtimeDescLe).take 20

/-- One iteration of the `for (const game of checkList)` loop: on a full
completion, push the id unless already present; otherwise (including the
`catch` branch) leave the accumulator unchanged. -/
def masteryStep (fetch : Nat → FetchResult) (mastered : List Nat) (game : Game) : List Nat :=
  if isMasteredFetch (fetch game.appid) then
    if mastered.contains game.appid then mastered else mastered ++ [game.appid]
  else mastered

/-- `verifyMastery` of `src/hooks/useMastery.ts`: guard on empty input,
seed the accumulator with the carried-forward mastered ids
(`[...masteredAppIds]`), and fold the classifier over the top-20
candidates. -/
def verifyMastery (games : List Game) (steamId : String) (masteredAppIds : List Nat)
    (fetch : Nat → FetchResult) : List Nat :=
  if games.length = 0 ∨ steamId = "" then masteredAppIds
  else (masteryCandidates games).foldl (masteryStep fetch) masteredAppIds

theorem mem_masteryStep (fetch : Nat → FetchResult) (acc : List Nat) (g : Game) (x : Nat) :
    x ∈ masteryStep fetch acc g ↔
      x ∈ acc ∨ (isMasteredFetch (fetch g.appid) = true ∧ g.appid = x) := by
  unfold masteryStep
  split_ifs with h1 h2
  · simp only [h1]
    constructor
    · exact fun hx => Or.inl hx
    · rintro (hx | ⟨_, hx⟩)
      · exact hx
      · subst hx
        simpa using h2
  · simp [h1, List.mem_append]
    tauto
  · simp [h1]

theorem foldl_masteryStep_mem (fetch : Nat → FetchResult) (cl : List Game) :
    ∀ (acc : List Nat) (x : Nat),
      x ∈ cl.foldl (masteryStep fetch) acc ↔
        x ∈ acc ∨ ∃ g ∈ cl, g.appid = x ∧ isMasteredFetch (fetch g.appid) = true := by
  induction cl with
  | nil => simp
  | cons g t ih =>
      intro acc x
      simp only [List.foldl_cons]
      rw [ih, mem_masteryStep]
      simp only [List.mem_cons]
      constructor
      · rintro ((hx | ⟨hc, he⟩) | ⟨g', hg', he', hc'⟩)
        · exact Or.inl hx
        · exact Or.inr ⟨g, Or.inl rfl, he, hc⟩
        · exact Or.inr ⟨g', Or.inr hg', he', hc'⟩
      · rintro (hx | ⟨g', (rfl | hg'), he', hc'⟩)
        · exact Or.inl (Or.inl hx)
        · exact Or.inl (Or.inr ⟨hc', he'⟩)
        · exact Or.inr ⟨g', hg', he', hc'⟩

theorem playtimeDescLe_trans (a b c : Game) :
    playtimeDescLe a b = true → playtimeDescLe b c = true → playtimeDescLe a c = true := by
  simp only [playtimeDescLe, decide_eq_true_eq]
  omega

theorem playtimeDescLe_total (a b : Game) :
    (playtimeDescLe a b || playtimeDescLe b a) = true := by
  simp only [playtimeDescLe, Bool.or_eq_true, decide_eq_true_eq]
  omega

theorem isMasteredFetch_false_of_zero (fr : FetchResult) :
    fr = .fail ∨ zeroAchievements fr = true → isMasteredFetch fr = false := by
  rintro (rfl | hz)
  · rfl
  · match fr with
    | .fail => rfl
    | .ok none => rfl
    | .ok (some p) =>
        match hach : p.achievements with
        | none => simp [isMasteredFetch, hach]
        | some achs =>
            simp only [zeroAchievements, hach, List.isEmpty_iff] at hz
            simp [isMasteredFetch, hach, hz]

/-- C4: the Mastery Classifier's candidate set is the top 20 games by total
playtime descending (at most 20, sorted descending, drawn from the input
list); the resulting mastered set contains exactly the prior ids plus the
candidates with a full-completion response, so prior ids are never removed
and a second pass over unchanged upstream data (with its candidate set a
subset of the first pass's) yields a superset; a candidate whose fetch
fails or carries no achievements is never added. -/
theorem spec_c4_mastery_classifier (games g2 : List Game) (steamId : String)
    (prior : List Nat) (fetch : Nat → FetchResult)
    (hs : steamId ≠ "")
    (hsub : ∀ g ∈ masteryCandidates g2, g ∈ masteryCandidates games) :
    ((masteryCandidates games).length ≤ 20
      ∧ (masteryCandidates games).Pairwise (fun a b => b.playtime_forever ≤ a.playtime_forever)
      ∧ (∀ g ∈ masteryCandidates games, g ∈ games))
    ∧ (∀ x, x ∈ verifyMastery games steamId prior fetch ↔
        x ∈ prior ∨ ∃ g ∈ masteryCandidates games, g.appid = x ∧
          isMasteredFetch (fetch g.appid) = true)
    ∧ (∀ x ∈ verifyMastery games steamId prior fetch,
        x ∈ verifyMastery g2 steamId (verifyMastery games steamId prior fetch) fetch)
    ∧ (∀ x, x ∉ prior →
        (fetch x = .fail ∨ zeroAchievements (fetch x) = true) →
        x ∉ verifyMastery games steamId prior fetch) := by
  have hmem : ∀ x, x ∈ verifyMastery games steamId prior fetch ↔
      x ∈ prior ∨ ∃ g ∈ masteryCandidates games, g.appid = x ∧
        isMasteredFetch (fetch g.appid) = true := by
    intro x
    unfold verifyMastery
    by_cases hg : games.length = 0 ∨ steamId = ""
    · rw [if_pos hg]
      have hnil : games = [] := by
        rcases hg with h | h
        · exact List.length_eq_zero.1 h
        · exact absurd h hs
      subst hnil
      simp [masteryCandidates]
    · rw [if_neg hg]
      exact foldl_masteryStep_mem fetch (masteryCandidates games) prior x
  refine ⟨⟨?_, ?_, ?_⟩, hmem, ?_, ?_⟩
  · rw [masteryCandidates, List.length_take]
    exact min_le_left _ _
  · have hsort := List.sorted_mergeSort
      playtimeDescLe_trans (fun a b => playtimeDescLe_total a b) games
    exact (hsort.sublist (List.take_sublist 20 _)).imp
      (fun h => by simpa [playtimeDescLe] using h)
  · intro g hg
    have hmem' : g ∈ games.mergeSort playtimeDescLe :=
      List.mem_of_mem_take hg
    exact (List.mergeSort_perm games playtimeDescLe).mem_iff.1 hmem'
  · intro x hx
    unfold verifyMastery
    by_cases hg2 : g2.length = 0 ∨ steamId = ""
    · rw [if_pos hg2]
      exact hx
    · rw [if_neg hg2]
      exact (foldl_masteryStep_mem fetch (masteryCandidates g2) _ x).2 (Or.inl hx)
  · intro x hxp hbad hx
    rcases (hmem x).1 hx with h | ⟨g, _, rfl, hm⟩
    · exact hxp h
    · rw [isMasteredFetch_false_of_zero _ hbad] at hm
      exact Bool.false_ne_true hm

/-- C4 witness: one game with a fully-achieved response is added to an
initially empty mastered set. -/
theorem spec_c4_witness :
    (7 : Nat) ∈ verifyMastery
      [{ appid := 7, name := "G", playtime_forever := 100,
         playtime_2weeks := some 0, img_icon_url := "" }] "s" []
      (fun _ => FetchResult.ok (some { success := some true, error := none,
                                       achievements := some [{ apiname := "A1", achieved := 1 }] })) := by
  have h := spec_c4_mastery_classifier
    [{ appid := 7, name := "G", playtime_forever := 100,
       playtime_2weeks := some 0, img_icon_url := "" }] [] "s" []
    (fun _ => FetchResult.ok (some { success := some true, error := none,
                                     achievements := some [{ apiname := "A1", achieved := 1 }] }))
    (by decide)
    (by intro g hg; simp [masteryCandidates] at hg)
  refine (h.2.1 7).2 (Or.inr ⟨{ appid := 7, name := "G", playtime_forever := 100,
                                playtime_2weeks := some 0, img_icon_url := "" }, ?_, rfl, by decide⟩)
  simp [masteryCandidates]

/-! ## Achievements endpoint of the Express server
(`GET /api/achievements/:steamid/:appid`, lines 163–202). -/

/-- The body shape `{ playerstats: ... }` of a `GetPlayerAchievements`
response, also used as the error body of a rejected request. -/
structure AchBody where
  playerstats : Option Playerstats
deriving DecidableEq, Repr

/-- One schema entry of `schema.game.availableGameStats.achievements`. -/
structure SchemaEntry where
  name : String
  displayName : Option String
  description : Option String
  icon : Option String
  icongray : Option String
deriving DecidableEq, Repr

/-- The schema fragment, keeping the
`game.availableGameStats.achievements` path the code reads and defaults. -/
structure SchemaBody where
  achievements : List SchemaEntry
deriving DecidableEq, Repr

/-- The global-stats fragment
(`achievementpercentages.achievements`). -/
structure GlobalBody where
  achievements : List GlobalAch
deriving DecidableEq, Repr

/-- One outcome of `Promise.allSettled`: fulfilled with response data, or
rejected; for a rejected request `reason` is
`achResponse.reason?.response?.data` (`none` when only a bare message is
available). -/
inductive Settled (α : Type)
  | fulfilled (data : α)
  | rejected (reason : Option AchBody)
deriving DecidableEq, Repr

def defaultSchemaBody : SchemaBody := { achievements := [] }

def defaultGlobalBody : GlobalBody := { achievements := [] }

/-- The merged response of the achievements endpoint. -/
structure AchievementsResponse where
  achievements : AchBody
  schema : SchemaBody
  globalStats : GlobalBody
deriving DecidableEq, Repr

/-- The achievements endpoint (`src` server, lines 163–202): three settled
upstream requests; a rejected player-achievement request whose error body
says `Profile is not public` short-circuits into the
`{ playerstats: { success: false, error: 'Private Profile' } }` shape,
otherwise each rejected fragment is replaced by its empty default. -/
def achievementsEndpoint (achR : Settled AchBody) (schemaR : Settled SchemaBody)
    (globalR : Settled GlobalBody) : AchievementsResponse :=
  let schemaOut : SchemaBody := match schemaR with
    | .fulfilled d => d
    | .rejected _ => defaultSchemaBody
  let globalOut : GlobalBody := match globalR with
    | .fulfilled d => d
    | .rejected _ => defaultGlobalBody
  match achR with
  | .rejected reason =>
      if (reason.bind (·.playerstats)).bind (·.error) = some "Profile is not public" then
        { achievements := { playerstats := some { success := some false
                                                  error := some "Private Profile"
                                                  achievements := none } }
          schema := schemaOut
          globalStats := globalOut }
      else
        { achievements := { playerstats := some { success := some false
                                                  error := none
                                                  achievements := some [] } }
          schema := schemaOut
          globalStats := globalOut }
  | .fulfilled d =>
      { achievements := d, schema := schemaOut, globalStats := globalOut }

/-- The achieved-list a client reads from the endpoint response:
`res.data.achievements?.playerstats?.achievements || []`. -/
def achievedList (r : AchievementsResponse) : List PlayerAch :=
  (r.achievements.playerstats.bind (·.achievements)).getD []

/-- C5: when the player-achievement request is rejected with an error body
whose `playerstats.error` is `Profile is not public`, the endpoint returns
the `Private Profile` tag with `success: false` and an empty achieved-list,
while a fulfilled schema or global-stats fragment is passed through
unchanged. -/
theorem spec_c5_private_profile (reason : Option AchBody)
    (schemaR : Settled SchemaBody) (globalR : Settled GlobalBody)
    (hpriv : (reason.bind (·.playerstats)).bind (·.error) = some "Profile is not public") :
    ((achievementsEndpoint (.rejected reason) schemaR globalR).achievements.playerstats.bind
        (·.error) = some "Private Profile")
    ∧ achievedList (achievementsEndpoint (.rejected reason) schemaR globalR) = []
    ∧ ((achievementsEndpoint (.rejected reason) schemaR globalR).achievements.playerstats.map
        (·.success) = some (some false))
    ∧ (∀ d, schemaR = .fulfilled d →
        (achievementsEndpoint (.rejected reason) schemaR globalR).schema = d)
    ∧ (∀ d, globalR = .fulfilled d →
        (achievementsEndpoint (.rejected reason) schemaR globalR).globalStats = d) := by
  refine ⟨?_, ?_, ?_, ?_, ?_⟩
  · simp [achievementsEndpoint, hpriv]
  · simp [achievementsEndpoint, achievedList, hpriv]
  · simp [achievementsEndpoint, hpriv]
  · intro d hd
    subst hd
    simp [achievementsEndpoint, hpriv]
  · intro d hd
    subst hd
    simp [achievementsEndpoint, hpriv]

/-- C5 witness: a concrete private-profile error body with a fulfilled
schema fragment and a rejected global fragment. -/
theorem spec_c5_witness :
    ((achievementsEndpoint
        (.rejected (some { playerstats := some { success := none
                                                 error := some "Profile is not public"
                                                 achievements := none } }))
        (.fulfilled { achievements := [{ name := "A1", displayName := some "One"
                                         description := none, icon := none, icongray := none }] })
        (.rejected none)).achievements.playerstats.bind (·.error) = some "Private Profile")
    ∧ achievedList (achievementsEndpoint
        (.rejected (some { playerstats := some { success := none
                                                 error := some "Profile is not public"
                                                 achievements := none } }))
        (.fulfilled { achievements := [{ name := "A1", displayName := some "One"
                                         description := none, icon := none, icongray := none }] })
        (.rejected none)) = []
    ∧ (achievementsEndpoint
        (.rejected (some { playerstats := some { success := none
                                                 error := some "Profile is not public"
                                                 achievements := none } }))
        (.fulfilled { achievements := [{ name := "A1", displayName := some "One"
                                         description := none, icon := none, icongray := none }] })
        (.rejected none)).schema
      = { achievements := [{ name := "A1", displayName := some "One"
                             description := none, icon := none, icongray := none }] } := by
  have h := spec_c5_private_profile
    (some { playerstats := some { success := none
                                  error := some "Profile is not public"
                                  achievements := none } })
    (.fulfilled { achievements := [{ name := "A1", displayName := some "One"
                                     description := none, icon := none, icongray := none }] })
    (.rejected none)
    rfl
  exact ⟨h.1, h.2.1, h.2.2.2.1 _ rfl⟩

/-! ## Persisted local state: `JSON.parse` and the localStorage loaders. -/

def jsonLBrace : Char := Char.ofNat 123

def jsonRBrace : Char := Char.ofNat 125

/-- A JSON value; strings are kept as character lists. -/
inductive Json where
  | null
  | bool (b : Bool)
  | num (q : ℚ)
  | str (s : List Char)
  | arr (elems : List Json)
  | obj (fields : List (List Char × Json))

def hexVal (c : Char) : Option Nat :=
  if c.isDigit then some (c.toNat - 48)
  else if 'a' ≤ c ∧ c ≤ 'f' then some (c.toNat - 87)
  else if 'A' ≤ c ∧ c ≤ 'F' then some (c.toNat - 55)
  else none

/-- Parse the remainder of a JSON string literal (the opening quote already
consumed), handling the standard escapes and rejecting raw control
characters, as `JSON.parse` does. -/
def parseJString : List Char → Option (List Char × List Char)
  | [] => none
  | c :: cs =>
      if c = '"' then some ([], cs)
      else if c = '\\' then
        match cs with
        | [] => none
        | e :: cs2 =>
            let esc : Option Char :=
              if e = '"' then some '"'
              else if e = '\\' then some '\\'
              else if e = '/' then some '/'
              else if e = 'b' then some (Char.ofNat 8)
              else if e = 'f' then some (Char.ofNat 12)
              else if e = 'n' then some '\n'
              else if e = 'r' then some '\r'
              else if e = 't' then some '\t'
              else none
            match esc with
            | some ch => (parseJString cs2).map (fun p => (ch :: p.1, p.2))
            | none =>
                if e = 'u' then
                  match cs2 with
                  | h1 :: h2 :: h3 :: h4 :: cs3 =>
                      match hexVal h1, hexVal h2, hexVal h3, hexVal h4 with
                      | some v1, some v2, some v3, some v4 =>
                          (parseJString cs3).map (fun p =>
                            (Char.ofNat (((v1 * 16 + v2) * 16 + v3) * 16 + v4) :: p.1, p.2))
                      | _, _, _, _ => none
                  | _ => none
                else none
      else if c.toNat < 32 then none
      else (parseJString cs).map (fun p => (c :: p.1, p.2))

/-- Parse a JSON number (strict grammar: optional minus, `0` or a
non-zero-led digit run, optional fraction, optional exponent), reusing
`ratOfParts` for the value. -/
def parseJNumber (cs : List Char) : Option (ℚ × List Char) :=
  let p0 : Bool × List Char := match cs with
    | '-' :: rest => (true, rest)
    | _ => (false, cs)
  match p0.2 with
  | c :: _ =>
      if c.isDigit then
        let p1 := digitsAux p0.2 0 0
        if c = '0' ∧ p1.2.1 ≠ 1 then none
        else
          let pf : Option (Nat × Nat × List Char) := match p1.2.2 with
            | '.' :: rest =>
                let p2 := digitsAux rest 0 0
                if p2.2.1 = 0 then none else some p2
            | _ => some (0, 0, p1.2.2)
          match pf with
          | none => none
          | some (fp, fcnt, cs3) =>
              let pe : Option (Int × List Char) := match cs3 with
                | e :: rest =>
                    if e = 'e' ∨ e = 'E' then
                      let ps : Bool × List Char := match rest with
                        | '-' :: r => (true, r)
                        | '+' :: r => (false, r)
                        | _ => (false, rest)
                      let p3 := digitsAux ps.2 0 0
                      if p3.2.1 = 0 then none
                      else some (if ps.1 then -(p3.1 : Int) else (p3.1 : Int), p3.2.2)
                    else some (0, cs3)
                | [] => some (0, [])
              match pe with
              | none => none
              | some (ex, cs4) =>
                  some (ratOfParts (p0.1, p1.1 * 10 ^ fcnt + fp, fcnt, ex), cs4)
      else none
  | [] => none

mutual

/-- Parse one JSON value; `fuel` bounds the recursion depth (two units of
fuel always consume at least one input character, so `2 * length + 2`
suffices at top level). -/
def parseJsonVal : Nat → List Char → Option (Json × List Char)
  | 0, _ => none
  | fuel + 1, cs0 =>
      match skipWs cs0 with
      | [] => none
      | c :: rest =>
          if c = '"' then
            (parseJString rest).map (fun p => (Json.str p.1, p.2))
          else if c = '[' then
            match skipWs rest with
            | ']' :: r2 => some (Json.arr [], r2)
            | r2 => (parseJsonElems fuel r2).map (fun p => (Json.arr p.1, p.2))
          else if c = jsonLBrace then
            match skipWs rest with
            | d :: r2 =>
                if d = jsonRBrace then some (Json.obj [], r2)
                else (parseJsonMembers fuel (d :: r2)).map (fun p => (Json.obj p.1, p.2))
            | [] => none
          else if c = 'n' then
            match rest with
            | 'u' :: 'l' :: 'l' :: r => some (Json.null, r)
            | _ => none
          else if c = 't' then
            match rest with
            | 'r' :: 'u' :: 'e' :: r => some (Json.bool true, r)
            | _ => none
          else if c = 'f' then
            match rest with
            | 'a' :: 'l' :: 's' :: 'e' :: r => some (Json.bool false, r)
            | _ => none
          else
            (parseJNumber (c :: rest)).map (fun p => (Json.num p.1, p.2))

/-- Parse the non-empty element list of a JSON array (opening bracket
consumed). -/
def parseJsonElems : Nat → List Char → Option (List Json × List Char)
  | 0, _ => none
  | fuel + 1, cs =>
      match parseJsonVal fuel cs with
      | none => none
      | some (v, rest) =>
          match skipWs rest with
          | ',' :: r2 => (parseJsonElems fuel r2).map (fun p => (v :: p.1, p.2))
          | ']' :: r2 => some ([v], r2)
          | _ => none

/-- Parse the non-empty member list of a JSON object (opening brace
consumed). -/
def parseJsonMembers : Nat → List Char → Option (List (List Char × Json) × List Char)
  | 0, _ => none
  | fuel + 1, cs =>
      match skipWs cs with
      | q :: rest =>
          if q = '"' then
            match parseJString rest with
            | none => none
            | some (key, r1) =>
                match skipWs r1 with
                | ':' :: r2 =>
                    match parseJsonVal fuel r2 with
                    | none => none
                    | some (v, r3) =>
                        match skipWs r3 with
                        | ',' :: r4 =>
                            (parseJsonMembers fuel r4).map (fun p => ((key, v) :: p.1, p.2))
                        | e :: r4 => if e = jsonRBrace then some ([(key, v)], r4) else none
                        | [] => none
                | _ => none
          else none
      | [] => none

end

/-- `JSON.parse`: `none` models a thrown `SyntaxError`. -/
def jsonParse (s : String) : Option Json :=
  match parseJsonVal (2 * s.length + 2) s.toList with
  | some (v, rest) => if skipWs rest = [] then some v else none
  | none => none

/-- The blacklist `useState` initializer of the application root
(`const saved = localStorage.getItem('vanguard-blacklist');
return saved ? JSON.parse(saved) : [];`).  There is no `try`/`catch`
around this `JSON.parse`: `Except.error ()` models the uncaught throw.
A missing or empty (falsy) stored value yields the empty array. -/
def blacklistInit (saved : Option String) : Except Unit Json :=
  match saved with
  | none => .ok (Json.arr [])
  | some s =>
      if s = "" then .ok (Json.arr [])
      else
        match jsonParse s with
        | some j => .ok j
        | none => .error ()

/-- `getStoredLinks` of `useAchievements`
(`src/context/NotificationContext.tsx` lines 104–110):
`try { return JSON.parse(localStorage.getItem(key) || '\x7b\x7d') }
catch { return \x7b\x7d }` — corrupt values fall back to the empty map. -/
def getStoredLinks (stored : Option String) : Json :=
  let s := match stored with
    | some s => if s = "" then "\x7b\x7d" else s
    | none => "\x7b\x7d"
  match jsonParse s with
  | some j => j
  | none => Json.obj []

/-- The `gameMetadata` `useState` initializer of the application root
(lines 160–174): iterate the stored key/value pairs, keep those under the
`vanguard-meta-` key space, and `try`/`catch` each `JSON.parse`, skipping
(with a log) any corrupt entry.  The numeric-suffix extraction
(`parseInt(key.replace(...))`) is kept as the full key string here. -/
def loadGameMetadata : List (String × String) → List (String × Json)
  | [] => []
  | (k, v) :: rest =>
      if listIsPrefixOf "vanguard-meta-".toList k.toList then
        match jsonParse v with
        | some j => (k, j) :: loadGameMetadata rest
        | none => loadGameMetadata rest
      else loadGameMetadata rest

/-- C7: the claim — every persisted local value tolerates corrupt JSON and
falls back to its empty default — fails on the code: the blacklist
`useState` initializer calls `JSON.parse` without a `try`/`catch`, so the
corrupt stored string `"\x7b"` throws instead of yielding the empty
list. -/
theorem spec_c7_counterexample :
    blacklistInit (some "\x7b") = Except.error ()
    ∧ (Except.error () : Except Unit Json) ≠ Except.ok (Json.arr []) := by
  constructor
  · rfl
  · intro h
    cases h

/-- C7 (amended): the video-link map loader and the per-game facet-cache
loader do treat any unparseable stored value as absent (empty map, entry
skipped), but the blacklist initializer has no guard and throws on a
corrupt non-empty stored string such as `"\x7b"`; only a missing or empty
stored blacklist value yields the empty default. -/
theorem spec_c7_amended (s k v : String) (rest : List (String × String)) :
    (jsonParse s = none → getStoredLinks (some s) = Json.obj [])
    ∧ (jsonParse v = none → loadGameMetadata ((k, v) :: rest) = loadGameMetadata rest)
    ∧ blacklistInit none = Except.ok (Json.arr [])
    ∧ blacklistInit (some "") = Except.ok (Json.arr [])
    ∧ blacklistInit (some "\x7b") = Except.error () := by
  refine ⟨?_, ?_, rfl, rfl, rfl⟩
  · intro hs
    by_cases he : s = ""
    · subst he
      rfl
    · simp only [getStoredLinks, he, if_false, hs]
  · intro hv
    simp only [loadGameMetadata, hv]
    split <;> rfl

/-- C7 witness: the corrupt stored string `"["` yields the empty video-link
map, and a corrupt facet-cache entry under the `vanguard-meta-` key space
is skipped. -/
theorem spec_c7_witness :
    getStoredLinks (some "[") = Json.obj []
    ∧ loadGameMetadata [("vanguard-meta-7", "\x7d")] = [] :=
  ⟨(spec_c7_amended "[" "" "" []).1 rfl,
   ((spec_c7_amended "" "vanguard-meta-7" "\x7d" []).2.1 rfl).trans rfl⟩

/-! ## Genre facet scan: `scanLibrary` of the application root
(lines 182–233). -/

/-- Store metadata as returned by `/api/store/:appid` and cached per game
under `vanguard-meta-<appid>`. -/
structure StoreMeta where
  genres : Option (List String)
  categories : Option (List String)
  metacritic : Option Int
  release_date : Option String
deriving DecidableEq, Repr

/-- The scan's mutable environment: the `isScanning` busy flag, the
per-game metadata cache and the available-genre set (a JavaScript `Set`,
modelled as a duplicate-free insertion-ordered list). -/
structure ScanState where
  isScanning : Bool
  cache : List (Nat × StoreMeta)
  availableGenres : List String
deriving DecidableEq, Repr

/-- `localStorage.getItem('vanguard-meta-' + id)` over the cache model. -/
def cacheGet (cache : List (Nat × StoreMeta)) (id : Nat) : Option StoreMeta :=
  (cache.find? (fun e => e.1 == id)).map (·.2)

/-- `meta.genres?.forEach(g => newGenres.add(g.description))`. -/
def addGenres (genres : List String) (meta : StoreMeta) : List String :=
  match meta.genres with
  | some gs => gs.foldl (fun acc g => if acc.contains g then acc else acc ++ [g]) genres
  | none => genres

/-- One `processGame` call of `scanLibrary`: a cache hit only unions its
genres; a cache miss fetches the store metadata, persists it and unions its
genres; a failed fetch is skipped silently.  The third component records
the ids actually fetched. -/
def processGame (fetch : Nat → Option StoreMeta)
    (st : List (Nat × StoreMeta) × List String × List Nat) (gameId : Nat) :
    List (Nat × StoreMeta) × List String × List Nat :=
  match cacheGet st.1 gameId with
  | some meta => (st.1, addGenres st.2.1 meta, st.2.2)
  | none =>
      match fetch gameId with
      | some meta => (st.1 ++ [(gameId, meta)], addGenres st.2.1 meta, st.2.2 ++ [gameId])
      | none => st

/-- `scanLibrary` (lines 182–233): return immediately when the busy flag is
set; otherwise process the first 50 games lacking a cached entry (the
batch-of-5 grouping and 500 ms inter-batch delay only pace the same
sequence of `processGame` calls and are elided), then persist the updated
genre set and clear the busy flag.  The second component is the list of
game ids fetched during the scan. -/
def scanLibrary (st : ScanState) (games : List Game) (fetch : Nat → Option StoreMeta) :
    ScanState × List Nat :=
  if st.isScanning then (st, [])
  else
    let unprofiledGames := games.filter (fun g => (cacheGet st.cache g.appid).isNone)
    let targetGames := unprofiledGames.take 50
    let final := (targetGames.map (·.appid)).foldl (processGame fetch)
      (st.cache, st.availableGenres, [])
    ({ isScanning := false, cache := final.1, availableGenres := final.2.1 }, final.2.2)

theorem processGame_processed (fetch : Nat → Option StoreMeta)
    (acc : List (Nat × StoreMeta) × List String × List Nat) (i : Nat) :
    (processGame fetch acc i).2.2 = acc.2.2
    ∨ (processGame fetch acc i).2.2 = acc.2.2 ++ [i] := by
  unfold processGame
  cases h1 : cacheGet acc.1 i
  · cases h2 : fetch i <;> simp
  · simp

theorem foldl_processGame_spec (fetch : Nat → Option StoreMeta) :
    ∀ (ids : List Nat) (acc : List (Nat × StoreMeta) × List String × List Nat),
      (∀ x ∈ (ids.foldl (processGame fetch) acc).2.2, x ∈ acc.2.2 ∨ x ∈ ids)
      ∧ (ids.foldl (processGame fetch) acc).2.2.length ≤ acc.2.2.length + ids.length := by
  intro ids
  induction ids with
  | nil => intro acc; simp
  | cons i t ih =>
      intro acc
      simp only [List.foldl_cons]
      obtain ⟨ihm, ihl⟩ := ih (processGame fetch acc i)
      have hstep := processGame_processed fetch acc i
      constructor
      · intro x hx
        rcases ihm x hx with h | h
        · rcases hstep with he | he
          · rw [he] at h
            exact Or.inl h
          · rw [he, List.mem_append] at h
            rcases h with h | h
            · exact Or.inl h
            · simp only [List.mem_singleton] at h
              exact Or.inr (h ▸ List.mem_cons_self i t)
        · exact Or.inr (List.mem_cons_of_mem i h)
      · have hlen : (processGame fetch acc i).2.2.length ≤ acc.2.2.length + 1 := by
          rcases hstep with he | he <;> rw [he] <;> simp
        calc (t.foldl (processGame fetch) (processGame fetch acc i)).2.2.length
            ≤ (processGame fetch acc i).2.2.length + t.length := ihl
          _ ≤ acc.2.2.length + 1 + t.length := by omega
          _ = acc.2.2.length + (i :: t).length := by simp; omega

/-- C9: a scan invocation that starts while the busy flag is set returns
immediately, leaving the state untouched and fetching nothing; otherwise
the fetched ids all come from the first 50 games lacking a cached facet
entry, at most 50 games are fetched, and the busy flag is clear when the
scan finishes. -/
theorem spec_c9_scan_library (st : ScanState) (games : List Game)
    (fetch : Nat → Option StoreMeta) :
    (st.isScanning = true → scanLibrary st games fetch = (st, []))
    ∧ (st.isScanning = false →
        (∀ x ∈ (scanLibrary st games fetch).2,
            x ∈ ((games.filter (fun g => (cacheGet st.cache g.appid).isNone)).take 50).map
              (·.appid))
        ∧ (scanLibrary st games fetch).2.length ≤ 50
        ∧ (scanLibrary st games fetch).1.isScanning = false) := by
  constructor
  · intro h
    unfold scanLibrary
    rw [if_pos h]
  · intro h
    unfold scanLibrary
    rw [if_neg (by simp [h])]
    obtain ⟨hm, hl⟩ := foldl_processGame_spec fetch
      (((games.filter (fun g => (cacheGet st.cache g.appid).isNone)).take 50).map (·.appid))
      (st.cache, st.availableGenres, [])
    refine ⟨?_, ?_, rfl⟩
    · intro x hx
      rcases hm x hx with hc | hc
      · simp at hc
      · exact hc
    · refine hl.trans ?_
      simp only [List.length_nil, Nat.zero_add, List.length_map, List.length_take]
      exact min_le_left _ _

/-- C9 witness: a busy state is left untouched, and an idle scan over one
uncached game with a failing fetch processes nothing but clears the
flag. -/
theorem spec_c9_witness :
    scanLibrary { isScanning := true, cache := [], availableGenres := [] } [] (fun _ => none)
      = ({ isScanning := true, cache := [], availableGenres := [] }, [])
    ∧ (scanLibrary { isScanning := false, cache := [], availableGenres := [] }
        [{ appid := 3, name := "G", playtime_forever := 1, playtime_2weeks := none,
           img_icon_url := "" }] (fun _ => none)).2.length ≤ 50 :=
  ⟨(spec_c9_scan_library { isScanning := true, cache := [], availableGenres := [] } []
      (fun _ => none)).1 rfl,
   ((spec_c9_scan_library { isScanning := false, cache := [], availableGenres := [] }
      [{ appid := 3, name := "G", playtime_forever := 1, playtime_2weeks := none,
         img_icon_url := "" }] (fun _ => none)).2 rfl).2.1⟩
